import Mathlib

/-
Shallow embedding of the LangflowEnvironment backend (Python) file-ingestion
subsystem: chunking, embedding and upsert (app/api/utils/qdrant.py), the
service-layer per-chunk loop (app/services/flow_service.py), the upload route
(app/api/routes/files.py), the Qdrant repository delete loop
(app/external/qdrant_repository.py), the image-description LRU cache
(app/utils/image_description_cache.py) and the processing tracker
(app/utils/processing_tracker.py).  Text is modelled as `List Char`, byte
strings as `List Nat`, Python dicts of string keys as association lists.
-/

/-- Chunk loop of `upload_to_qdrant` (qdrant.py lines 318-323):
`for i in range(0, len(content), stride): chunk = content[i:i+size]; if chunk: append`.
Called only with `stride ≥ 1` (Python `range` raises on step 0, and the
wrapper `chunksPy` models that); the `stride = 0` branch returning `[]` is
unreachable from `chunksPy`. -/
def chunkCore (stride size : Nat) (t : List Char) : List (List Char) :=
  if ht : t = [] then []
  else if hs : stride = 0 then []
  else (if (t.take size).isEmpty then [] else [t.take size]) ++ chunkCore stride size (t.drop stride)
termination_by t.length
decreasing_by
  have h1 : 0 < t.length := List.length_pos.mpr ht
  have h2 : 0 < stride := Nat.pos_of_ne_zero hs
  simp only [List.length_drop]
  omega

/-- The chunking step with Python `range` error semantics: the stride is the
Python int `chunk_size - chunk_overlap`; `range` raises `ValueError` when the
step is zero, and yields no indices when the step is negative (so no chunks
are produced). -/
def chunksPy (size overlap : Nat) (t : List Char) : Except String (List (List Char)) :=
  if (size : Int) - (overlap : Int) = 0 then
    Except.error "ValueError: range() arg 3 must not be zero"
  else if (size : Int) - (overlap : Int) < 0 then
    Except.ok []
  else
    Except.ok (chunkCore (size - overlap) size t)

/-- A point as built by the per-chunk loop of `upload_to_qdrant`: vector from
the embedding call, payload page_content = the chunk, metadata.chunk_idx from
`enumerate`. -/
structure QdrantUpsertPoint where
  vector : List Int
  pageContent : List Char
  chunkIdx : Nat
deriving DecidableEq, Repr

/-- The per-chunk embedding loop of `upload_to_qdrant` (qdrant.py lines
328-349).  `embed c = none` models `get_text_embedding` raising: the loop has
no inner try/except, so the exception aborts the loop (propagating to the
outer handler).  The second component counts embedding calls made. -/
def embedLoop (embed : List Char → Option (List Int)) :
    List (List Char) → Nat → Nat → Option (List QdrantUpsertPoint) × Nat
  | [], _, calls => (some [], calls)
  | c :: cs, idx, calls =>
    match embed c with
    | none => (none, calls + 1)
    | some v =>
      match embedLoop embed cs (idx + 1) (calls + 1) with
      | (none, m) => (none, m)
      | (some ps, m) => (some (⟨v, c, idx⟩ :: ps), m)

/-- Outcome of `upload_to_qdrant`: return value, number of embedding calls
made, and the points passed to `client.upsert` ([] when no upsert happened). -/
structure UploadResult where
  success : Bool
  embedCalls : Nat
  upserted : List QdrantUpsertPoint
deriving DecidableEq, Repr

/-- `upload_to_qdrant` (qdrant.py lines 317-366), from the chunking step on:
chunk the content, embed every chunk in order, upsert the points if any; any
exception (range ValueError, or an embedding failure) reaches the outer
`except` which returns False with nothing upserted. -/
def uploadToQdrant (embed : List Char → Option (List Int))
    (size overlap : Nat) (content : List Char) : UploadResult :=
  match chunksPy size overlap content with
  | Except.error _ => ⟨false, 0, []⟩
  | Except.ok cs =>
    match embedLoop embed cs 0 0 with
    | (none, n) => ⟨false, n, []⟩
    | (some ps, n) => if ps.isEmpty then ⟨false, n, []⟩ else ⟨true, n, ps⟩

/-- Reconstruction map of the chunking-coverage invariant: concatenate each
chunk's leading non-overlapping window (its first `stride` characters) for all
chunks but the last, then the whole last chunk. -/
def reconstruct (stride : Nat) (cs : List (List Char)) : List Char :=
  (cs.dropLast.map (fun c => c.take stride)).flatten ++ (cs.getLast?.getD [])

/-- The per-chunk loop of `_process_file_background_async`
(flow_service.py lines 673-705): each chunk is embedded inside a try/except;
on failure the error is printed and the loop continues, skipping the chunk;
on success a document chunk (content, embedding) is appended. -/
def buildDocumentChunks (embed : List Char → Option (List Int)) :
    List (List Char) → List (List Char × List Int)
  | [] => []
  | c :: cs =>
    match embed c with
    | none => buildDocumentChunks embed cs
    | some v => (c, v) :: buildDocumentChunks embed cs

/-- Terminal outcome of the service-layer ingestion job. -/
inductive JobOutcome where
  | success (uploadedChunks : Nat)
  | failure (error : String)
deriving DecidableEq, Repr

/-- End of `_process_file_background_async` (flow_service.py lines 706-726):
if no document chunk survived the loop, raise `ValueError("No valid chunks
were created from the file")`; otherwise upload all surviving chunks
(`upload_documents` upserts them and returns True on a nonempty list). -/
def processChunksFlowService (embed : List Char → Option (List Int))
    (cs : List (List Char)) : JobOutcome :=
  let dcs := buildDocumentChunks embed cs
  if dcs.isEmpty then JobOutcome.failure "No valid chunks were created from the file"
  else JobOutcome.success dcs.length

/-- Result of the `upload_file_to_collection` route (files.py lines 280-395):
HTTP status, whether the saved file is still on disk when the response is
sent, and whether the background processing task was scheduled.  Extraction
and embedding happen only inside the background task. -/
structure UploadRouteResult where
  status : Nat
  savedFileKept : Bool
  backgroundScheduled : Bool
deriving DecidableEq, Repr

/-- Control flow of `upload_file_to_collection` (files.py lines 280-395): the
guard sequence 401 (token), 503 (qdrant), 400 (filename), 400 (flow id),
403 (access), 404 (collection missing); then the file is saved and
`is_file_in_qdrant` is probed on the stored path: a hit unlinks the saved
file and raises 409 before the tracker entry and background task exist;
otherwise the background task is scheduled and 200 returned. -/
def uploadFileToCollection (tokenValid qdrantUp hasFilename flowIdNonempty
    hasAccess collectionExists fileAlreadyInQdrant : Bool) : UploadRouteResult :=
  if !tokenValid then ⟨401, false, false⟩
  else if !qdrantUp then ⟨503, false, false⟩
  else if !hasFilename then ⟨400, false, false⟩
  else if !flowIdNonempty then ⟨400, false, false⟩
  else if !hasAccess then ⟨403, false, false⟩
  else if !collectionExists then ⟨404, false, false⟩
  else if fileAlreadyInQdrant then ⟨409, false, false⟩
  else ⟨200, true, true⟩

/-- Embedding calls performed by the upload endpoint as a whole: the per-chunk
work of `upload_to_qdrant` runs only inside the scheduled background task. -/
def uploadEndpointEmbedCalls (tokenValid qdrantUp hasFilename flowIdNonempty
    hasAccess collectionExists fileAlreadyInQdrant : Bool)
    (embed : List Char → Option (List Int)) (size overlap : Nat)
    (content : List Char) : Nat :=
  if (uploadFileToCollection tokenValid qdrantUp hasFilename flowIdNonempty
      hasAccess collectionExists fileAlreadyInQdrant).backgroundScheduled then
    (uploadToQdrant embed size overlap content).embedCalls
  else 0

/-- A stored point as seen by the deletion loop: its id and its
`metadata.file_path` payload field. -/
structure QPoint where
  pid : Nat
  filePath : String
deriving DecidableEq, Repr

/-- `client.scroll` with a `metadata.file_path` match filter and a limit:
returns the first `limit` points whose file path matches. -/
def scrollByFilePath (coll : List QPoint) (p : String) (limit : Nat) : List QPoint :=
  (coll.filter (fun q => q.filePath == p)).take limit

/-- `client.delete` with a list of point ids: removes every point whose id is
in the list. -/
def deleteByIds (coll : List QPoint) (ids : List Nat) : List QPoint :=
  coll.filter (fun q => !(ids.contains q.pid))

/-- `QdrantRepository.delete_documents_by_file_path` (qdrant_repository.py
lines 122-163): scroll for up to 100 matching points; if none, stop; delete
the batch by ids and add its size to the total; if the batch was short
(< 100) stop, else loop.  Returns (total deleted, resulting collection). -/
def deleteDocumentsByFilePath (coll : List QPoint) (p : String) : Nat × List QPoint :=
  let batch := scrollByFilePath coll p 100
  if hb : batch = [] then (0, coll)
  else
    let coll2 := deleteByIds coll (batch.map (fun q => q.pid))
    if batch.length < 100 then (batch.length, coll2)
    else
      let r := deleteDocumentsByFilePath coll2 p
      (batch.length + r.1, r.2)
termination_by (coll.filter (fun q => q.filePath == p)).length
decreasing_by
  rcases List.exists_mem_of_ne_nil _ hb with ⟨q, hq⟩
  have hqF : q ∈ List.filter (fun r => r.filePath == p) coll := List.mem_of_mem_take hq
  have key : List.filter (fun r => r.filePath == p)
      (deleteByIds coll (List.map (fun r => r.pid) (scrollByFilePath coll p 100))) =
      List.filter (fun r => !((List.map (fun r => r.pid) (scrollByFilePath coll p 100)).contains r.pid))
        (List.filter (fun r => r.filePath == p) coll) := by
    simp only [deleteByIds, List.filter_filter]
    exact List.filter_congr (fun r _ => Bool.and_comm _ _)
  rw [key]
  refine List.length_filter_lt_length_iff_exists.mpr ⟨q, hqF, ?_⟩
  simp
  exact ⟨q, hq, rfl⟩

/-- `check_file_exists` (qdrant_repository.py lines 165-183) and
`is_file_in_qdrant` (qdrant.py lines 41-62): scroll with limit 1 on the
`metadata.file_path` filter and test whether anything came back. -/
def checkFileExists (coll : List QPoint) (p : String) : Bool :=
  (scrollByFilePath coll p 1).length > 0

/-- Collection info as reported by the `create_collection` route. -/
structure CollectionInfo where
  pointsCount : Nat
  vectorSize : Nat
deriving DecidableEq, Repr

/-- Response payload of the `create_collection` route. -/
structure CreateCollectionResponse where
  created : Bool
  info : CollectionInfo
deriving DecidableEq, Repr

/-- `create_collection` route (files.py lines 70-123), after the guards: list
the existing collections; if the name is present, return the existing
collection's info with `created = False` and touch nothing; otherwise create
the collection (empty, with the detected vector size) and return its info
with `created = True`. -/
def createCollection (state : List (String × CollectionInfo)) (name : String)
    (vectorSize : Nat) : List (String × CollectionInfo) × CreateCollectionResponse :=
  match state.lookup name with
  | some info => (state, ⟨false, info⟩)
  | none => ((name, ⟨0, vectorSize⟩) :: state, ⟨true, ⟨0, vectorSize⟩⟩)

/-- SHA-256 of the image bytes, modelled as an injective digest (the identity
on byte strings); the cache keys entries by this hash
(image_description_cache.py `_compute_image_hash`). -/
def hashImage (b : List Nat) : List Nat := b

/-- `ImageDescriptionCache` state: the `OrderedDict` as an association list in
insertion order (head = oldest, last = most recently used) plus `max_size`. -/
structure ImageDescriptionCache where
  entries : List (List Nat × String)
  maxSize : Nat
deriving DecidableEq, Repr

/-- `get_description` (image_description_cache.py lines 19-31): on a hit, pop
the entry and re-insert it at the end (most recently used) and return the
description; on a miss return None and leave the cache unchanged. -/
def getDescription (c : ImageDescriptionCache) (b : List Nat) :
    Option String × ImageDescriptionCache :=
  let h := hashImage b
  match c.entries.lookup h with
  | some d => (some d, ⟨(c.entries.eraseP (fun e => e.1 == h)) ++ [(h, d)], c.maxSize⟩)
  | none => (none, c)

/-- `store_description` (image_description_cache.py lines 33-46): refresh an
existing key by pop-and-reinsert at the end; otherwise, if the cache is at
capacity, `popitem(last=False)` evicts the oldest entry first (raising
KeyError if the dict is empty, which can only happen with `max_size = 0`),
then append the new entry. -/
def storeDescription (c : ImageDescriptionCache) (b : List Nat) (d : String) :
    Except String ImageDescriptionCache :=
  let h := hashImage b
  if (c.entries.lookup h).isSome then
    Except.ok ⟨(c.entries.eraseP (fun e => e.1 == h)) ++ [(h, d)], c.maxSize⟩
  else if c.maxSize ≤ c.entries.length then
    match c.entries with
    | [] => Except.error "KeyError: dictionary is empty"
    | _ :: rest => Except.ok ⟨rest ++ [(h, d)], c.maxSize⟩
  else
    Except.ok ⟨c.entries ++ [(h, d)], c.maxSize⟩

/-- A fresh cache of the given capacity. -/
def emptyCache (n : Nat) : ImageDescriptionCache := ⟨[], n⟩

/-- Insert a sequence of images into the cache in order, with descriptions
given by `desc`; stops at the first error. -/
def storeAll (c : ImageDescriptionCache) (desc : List Nat → String) :
    List (List Nat) → Except String ImageDescriptionCache
  | [] => Except.ok c
  | b :: bs =>
    match storeDescription c b (desc b) with
    | Except.error e => Except.error e
    | Except.ok c2 => storeAll c2 desc bs

/-- Well-formedness of the cache, guaranteed by `OrderedDict`: keys are
pairwise distinct. -/
abbrev CacheWF (c : ImageDescriptionCache) : Prop := (c.entries.map Prod.fst).Nodup

/-- A tracker entry's fields relevant to the terminal states: `status` and
the optional `error` message. -/
structure TrackerEntry where
  status : String
  error : Option String
deriving DecidableEq, Repr

/-- State touched by the `process_file` background closure (files.py lines
356-381): the tracker entry for this file id (None when absent) and whether
the saved source file is still on disk. -/
structure ProcessFileState where
  trackerEntry : Option TrackerEntry
  fileOnDisk : Bool
deriving DecidableEq, Repr

/-- How the `upload_to_qdrant` call inside `process_file` ended. -/
inductive UploadOutcome where
  | returnedTrue
  | returnedFalse
  | raised (msg : String)
deriving DecidableEq, Repr

/-- `ProcessingFileTracker.update_file` restricted to this file's entry: the
update applies only when the entry is present. -/
def updateEntry (e : Option TrackerEntry) (st : String) (err : Option String) :
    Option TrackerEntry :=
  e.map (fun _ => ⟨st, err⟩)

/-- The `process_file` background closure (files.py lines 356-381): on
`upload_to_qdrant` returning True, remove the tracker entry (the file is not
unlinked); on False, mark the entry failed with error "Processing failed" and
unlink the file; on an exception, mark the entry failed with the exception
message and unlink the file. -/
def processFile (outcome : UploadOutcome) (s : ProcessFileState) : ProcessFileState :=
  match outcome with
  | UploadOutcome.returnedTrue => ⟨none, s.fileOnDisk⟩
  | UploadOutcome.returnedFalse =>
    ⟨updateEntry s.trackerEntry "failed" (some "Processing failed"), false⟩
  | UploadOutcome.raised m => ⟨updateEntry s.trackerEntry "failed" (some m), false⟩

/-- A Python dict with string keys, as an association list. -/
abbrev PyDict := List (String × String)

/-- Setting one key of a dict: replaces any existing binding. -/
def dictInsert (d : PyDict) (k v : String) : PyDict :=
  (k, v) :: d.eraseP (fun e => e.1 == k)

/-- Python `dict.update(updates)`: set every key of `updates` in order. -/
def dictUpdate (d : PyDict) : List (String × String) → PyDict
  | [] => d
  | (k, v) :: rest => dictUpdate (dictInsert d k v) rest

/-- The `ProcessingFileTracker` store: file id to entry dict. -/
abbrev Tracker := List (String × PyDict)

/-- `ProcessingFileTracker.update_file` (processing_tracker.py lines 30-35):
only when the file id is tracked, merge the updates into its dict and set
`last_updated`; otherwise do nothing. -/
def updateFile (t : Tracker) (fid : String) (updates : List (String × String))
    (now : String) : Tracker :=
  if (t.lookup fid).isSome then
    t.map (fun e =>
      if e.1 == fid then (e.1, dictInsert (dictUpdate e.2 updates) "last_updated" now)
      else e)
  else t

/-- `ProcessingFileTracker.is_processing`: membership of the file id. -/
def isProcessing (t : Tracker) (fid : String) : Bool := (t.lookup fid).isSome

/-- An embedding oracle that fails on the chunk "a" and succeeds elsewhere,
exhibiting a mid-job embedding failure. -/
def embedFailFirst : List Char → Option (List Int) :=
  fun c => if c = ['a'] then none else some [0]

theorem chunkCore_nil (stride size : Nat) : chunkCore stride size [] = [] := by
  rw [chunkCore]
  simp

theorem chunkCore_cons {stride size : Nat} {t : List Char} (ht : t ≠ [])
    (hs : stride ≠ 0) (hz : size ≠ 0) :
    chunkCore stride size t = t.take size :: chunkCore stride size (t.drop stride) := by
  rw [chunkCore]
  rw [dif_neg ht, dif_neg hs]
  have htake : (t.take size).isEmpty = false := by
    simp [List.isEmpty_iff, List.take_eq_nil_iff, ht, hz]
  rw [htake]
  simp

theorem chunkCore_eq_nil_iff {stride size : Nat} {t : List Char}
    (hs : stride ≠ 0) (hz : size ≠ 0) :
    chunkCore stride size t = [] ↔ t = [] := by
  constructor
  · intro h
    by_contra ht
    rw [chunkCore_cons ht hs hz] at h
    exact List.cons_ne_nil _ _ h
  · intro h
    rw [h, chunkCore_nil]

theorem chunkCore_mem {stride size : Nat} (hs : stride ≠ 0) (hz : size ≠ 0) :
    ∀ t : List Char, ∀ c ∈ chunkCore stride size t, c ≠ [] ∧ c.length ≤ size := by
  have main : ∀ n : Nat, ∀ t : List Char, t.length ≤ n →
      ∀ c ∈ chunkCore stride size t, c ≠ [] ∧ c.length ≤ size := by
    intro n
    induction n with
    | zero =>
      intro t htn c hc
      have ht : t = [] := List.eq_nil_of_length_eq_zero (Nat.le_zero.mp htn)
      rw [ht, chunkCore_nil] at hc
      cases hc
    | succ n ih =>
      intro t htn c hc
      by_cases ht : t = []
      · rw [ht, chunkCore_nil] at hc
        cases hc
      · rw [chunkCore_cons ht hs hz] at hc
        rcases List.mem_cons.mp hc with h | h
        · subst h
          refine ⟨?_, ?_⟩
          · simp [List.take_eq_nil_iff, ht, hz]
          · exact List.length_take_le _ _
        · refine ih (t.drop stride) ?_ c h
          have h1 : 0 < t.length := List.length_pos.mpr ht
          have h2 : 0 < stride := Nat.pos_of_ne_zero hs
          simp only [List.length_drop]
          omega
  exact fun t => main t.length t (Nat.le_refl _)

theorem chunkCore_get {stride size : Nat} (hs : stride ≠ 0) (hz : size ≠ 0) :
    ∀ t : List Char, ∀ k : Nat, ∀ hk : k < (chunkCore stride size t).length,
      (chunkCore stride size t).get ⟨k, hk⟩ = (t.drop (k * stride)).take size := by
  have main : ∀ n : Nat, ∀ t : List Char, t.length ≤ n →
      ∀ k : Nat, ∀ hk : k < (chunkCore stride size t).length,
      (chunkCore stride size t).get ⟨k, hk⟩ = (t.drop (k * stride)).take size := by
    intro n
    induction n with
    | zero =>
      intro t htn k hk
      have ht : t = [] := List.eq_nil_of_length_eq_zero (Nat.le_zero.mp htn)
      subst ht
      rw [chunkCore_nil] at hk
      cases hk
    | succ n ih =>
      intro t htn k hk
      by_cases ht : t = []
      · subst ht
        rw [chunkCore_nil] at hk
        cases hk
      · have hstep : chunkCore stride size t =
            t.take size :: chunkCore stride size (t.drop stride) :=
          chunkCore_cons ht hs hz
        match k with
        | 0 =>
          simp only [List.get_eq_getElem]
          rw [List.getElem_of_eq hstep]
          simp
        | k + 1 =>
          simp only [List.get_eq_getElem]
          rw [List.getElem_of_eq hstep]
          have hk2 : k < (chunkCore stride size (t.drop stride)).length := by
            have := hk
            rw [hstep] at this
            simpa using this
          have hlen : (t.drop stride).length ≤ n := by
            have h1 : 0 < t.length := List.length_pos.mpr ht
            have h2 : 0 < stride := Nat.pos_of_ne_zero hs
            simp only [List.length_drop]
            omega
          have := ih (t.drop stride) hlen k hk2
          simp only [List.get_eq_getElem] at this
          rw [List.getElem_cons_succ, this, List.drop_drop]
          ring_nf
  exact fun t => main t.length t (Nat.le_refl _)

theorem reconstruct_nil (stride : Nat) : reconstruct stride [] = [] := by
  simp [reconstruct]

theorem reconstruct_single (stride : Nat) (c : List Char) :
    reconstruct stride [c] = c := by
  simp [reconstruct]

theorem reconstruct_cons (stride : Nat) (a : List Char) {l : List (List Char)}
    (hl : l ≠ []) :
    reconstruct stride (a :: l) = a.take stride ++ reconstruct stride l := by
  match l with
  | [] => exact absurd rfl hl
  | b :: m =>
    simp [reconstruct, List.dropLast_cons₂, List.append_assoc]

theorem chunkCore_reconstruct {stride size : Nat} (hs : stride ≠ 0)
    (hss : stride ≤ size) :
    ∀ t : List Char, reconstruct stride (chunkCore stride size t) = t := by
  have hz : size ≠ 0 := by omega
  have main : ∀ n : Nat, ∀ t : List Char, t.length ≤ n →
      reconstruct stride (chunkCore stride size t) = t := by
    intro n
    induction n with
    | zero =>
      intro t htn
      have ht : t = [] := List.eq_nil_of_length_eq_zero (Nat.le_zero.mp htn)
      rw [ht, chunkCore_nil, reconstruct_nil]
    | succ n ih =>
      intro t htn
      by_cases ht : t = []
      · rw [ht, chunkCore_nil, reconstruct_nil]
      · rw [chunkCore_cons ht hs hz]
        have hlen : (t.drop stride).length ≤ n := by
          have h1 : 0 < t.length := List.length_pos.mpr ht
          have h2 : 0 < stride := Nat.pos_of_ne_zero hs
          simp only [List.length_drop]
          omega
        by_cases hrest : t.drop stride = []
        · rw [hrest, chunkCore_nil, reconstruct_single]
          have hts : t.length ≤ stride := by
            have := congrArg List.length hrest
            simp only [List.length_drop, List.length_nil] at this
            omega
          exact List.take_of_length_le (Nat.le_trans hts hss)
        · have hrec : chunkCore stride size (t.drop stride) ≠ [] := by
            rw [Ne, chunkCore_eq_nil_iff hs hz]
            exact hrest
          rw [reconstruct_cons stride _ hrec, ih (t.drop stride) hlen]
          rw [List.take_take, Nat.min_eq_left hss]
          exact List.take_append_drop stride t
  exact fun t => main t.length t (Nat.le_refl _)

/-- C2: for every text and every pair chunk_size > chunk_overlap >= 0, the
chunking step produces consecutive windows at offsets 0, stride, 2*stride, ...
(stride = chunk_size - chunk_overlap), each nonempty and of length at most
chunk_size, and concatenating each chunk's leading non-overlapping window
(its first stride characters; the whole last chunk) reconstructs the text. -/
theorem chunking_coverage (t : List Char) (size overlap : Nat) (h : overlap < size) :
    chunksPy size overlap t = Except.ok (chunkCore (size - overlap) size t) ∧
    (∀ c ∈ chunkCore (size - overlap) size t, c ≠ [] ∧ c.length ≤ size) ∧
    (∀ k : Nat, ∀ hk : k < (chunkCore (size - overlap) size t).length,
      (chunkCore (size - overlap) size t).get ⟨k, hk⟩ =
        (t.drop (k * (size - overlap))).take size) ∧
    reconstruct (size - overlap) (chunkCore (size - overlap) size t) = t := by
  have hs : size - overlap ≠ 0 := by omega
  have hz : size ≠ 0 := by omega
  have hss : size - overlap ≤ size := Nat.sub_le _ _
  have h1 : ¬((size : Int) - (overlap : Int) = 0) := by omega
  have h2 : ¬((size : Int) - (overlap : Int) < 0) := by omega
  refine ⟨?_, chunkCore_mem hs hz t, chunkCore_get hs hz t,
    chunkCore_reconstruct hs hss t⟩
  rw [chunksPy, if_neg h1, if_neg h2]

/-- Witness for C2 at text "abc", chunk_size 2, chunk_overlap 1. -/
theorem chunking_coverage_witness :
    chunksPy 2 1 ['a', 'b', 'c'] = Except.ok (chunkCore (2 - 1) 2 ['a', 'b', 'c']) ∧
    (∀ c ∈ chunkCore (2 - 1) 2 ['a', 'b', 'c'], c ≠ [] ∧ c.length ≤ 2) ∧
    (∀ k : Nat, ∀ hk : k < (chunkCore (2 - 1) 2 ['a', 'b', 'c']).length,
      (chunkCore (2 - 1) 2 ['a', 'b', 'c']).get ⟨k, hk⟩ =
        ((['a', 'b', 'c'] : List Char).drop (k * (2 - 1))).take 2) ∧
    reconstruct (2 - 1) (chunkCore (2 - 1) 2 ['a', 'b', 'c']) = ['a', 'b', 'c'] :=
  chunking_coverage ['a', 'b', 'c'] 2 1 (by decide)

theorem embedLoop_total (embed : List Char → Option (List Int)) :
    ∀ cs : List (List Char), (∀ c ∈ cs, (embed c).isSome) →
    ∀ idx calls : Nat, ∃ ps : List QdrantUpsertPoint,
      embedLoop embed cs idx calls = (some ps, calls + cs.length) ∧
      ps.length = cs.length := by
  intro cs
  induction cs with
  | nil =>
    intro h idx calls
    exact ⟨[], rfl, rfl⟩
  | cons c cs ih =>
    intro h idx calls
    have hc : (embed c).isSome := h c (List.mem_cons_self _ _)
    obtain ⟨v, hv⟩ := Option.isSome_iff_exists.mp hc
    obtain ⟨ps, hps, hlen⟩ :=
      ih (fun x hx => h x (List.mem_cons_of_mem _ hx)) (idx + 1) (calls + 1)
    refine ⟨⟨v, c, idx⟩ :: ps, ?_, by simp [hlen]⟩
    simp only [embedLoop, hv]
    rw [hps]
    have : calls + 1 + cs.length = calls + (cs.length + 1) := by omega
    rw [this]
    simp

theorem chunkCore_2500 (content : List Char) (hlen : content.length = 2500) :
    chunkCore 800 1000 content =
      [content.take 1000, (content.drop 800).take 1000,
        (content.drop 1600).take 1000, content.drop 2400] := by
  have hs : (800 : Nat) ≠ 0 := by decide
  have hz : (1000 : Nat) ≠ 0 := by decide
  have h0 : content ≠ [] := by
    intro h
    rw [h] at hlen
    simp at hlen
  have h1 : content.drop 800 ≠ [] := by
    rw [← List.length_pos, List.length_drop, hlen]
    omega
  have h2 : content.drop 1600 ≠ [] := by
    rw [← List.length_pos, List.length_drop, hlen]
    omega
  have h3 : content.drop 2400 ≠ [] := by
    rw [← List.length_pos, List.length_drop, hlen]
    omega
  have h4 : content.drop 3200 = [] := by
    apply List.eq_nil_of_length_eq_zero
    rw [List.length_drop, hlen]
  rw [chunkCore_cons h0 hs hz]
  rw [chunkCore_cons h1 hs hz, List.drop_drop]
  norm_num
  rw [chunkCore_cons h2 hs hz, List.drop_drop]
  norm_num
  rw [chunkCore_cons h3 hs hz, List.drop_drop]
  norm_num
  rw [h4, chunkCore_nil]
  exact ⟨by omega, rfl⟩

/-- C1: a 2500-character text with chunk_size=1000 and chunk_overlap=200
yields exactly 4 chunks at offsets 0, 800, 1600, 2400 (the last being the
100-character remainder); `upload_to_qdrant` requests one embedding per chunk
(4 calls) and upserts exactly 4 points. -/
theorem ingestion_2500_four_chunks (content : List Char)
    (hlen : content.length = 2500) (embed : List Char → Option (List Int))
    (hembed : ∀ c : List Char, (embed c).isSome) :
    chunksPy 1000 200 content = Except.ok
      [content.take 1000, (content.drop 800).take 1000,
        (content.drop 1600).take 1000, content.drop 2400] ∧
    (content.drop 2400).length = 100 ∧
    (uploadToQdrant embed 1000 200 content).success = true ∧
    (uploadToQdrant embed 1000 200 content).embedCalls = 4 ∧
    (uploadToQdrant embed 1000 200 content).upserted.length = 4 := by
  have hch : chunksPy 1000 200 content = Except.ok
      [content.take 1000, (content.drop 800).take 1000,
        (content.drop 1600).take 1000, content.drop 2400] := by
    rw [chunksPy, if_neg (by omega), if_neg (by omega)]
    norm_num
    exact chunkCore_2500 content hlen
  have hrem : (content.drop 2400).length = 100 := by
    rw [List.length_drop, hlen]
  obtain ⟨ps, hps, hpslen⟩ := embedLoop_total embed
    [content.take 1000, (content.drop 800).take 1000,
      (content.drop 1600).take 1000, content.drop 2400]
    (fun c _ => hembed c) 0 0
  have hup : uploadToQdrant embed 1000 200 content = ⟨true, 4, ps⟩ := by
    rw [uploadToQdrant, hch]
    dsimp only
    rw [hps]
    have hne : ps.isEmpty = false := by
      cases ps with
      | nil => simp at hpslen
      | cons a l => rfl
    simp [hne]
  refine ⟨hch, hrem, ?_, ?_, ?_⟩ <;> rw [hup] <;> simp [hpslen]

/-- Witness for C1 at the 2500-character text of all letter a, with an
embedding function that always succeeds. -/
theorem ingestion_2500_four_chunks_witness :
    chunksPy 1000 200 (List.replicate 2500 'a') = Except.ok
      [(List.replicate 2500 'a').take 1000,
        ((List.replicate 2500 'a').drop 800).take 1000,
        ((List.replicate 2500 'a').drop 1600).take 1000,
        (List.replicate 2500 'a').drop 2400] ∧
    ((List.replicate 2500 'a').drop 2400).length = 100 ∧
    (uploadToQdrant (fun _ => some [0]) 1000 200 (List.replicate 2500 'a')).success = true ∧
    (uploadToQdrant (fun _ => some [0]) 1000 200 (List.replicate 2500 'a')).embedCalls = 4 ∧
    (uploadToQdrant (fun _ => some [0]) 1000 200 (List.replicate 2500 'a')).upserted.length = 4 :=
  ingestion_2500_four_chunks (List.replicate 2500 'a')
    (List.length_replicate 2500 'a') (fun _ => some [0]) (fun _ => rfl)

/-- C8 counterexample: with chunk_size=2 and chunk_overlap=3 on the text
"abc", the chunking step raises no configuration error: the Python range over
a negative step is empty, so the chunk list is silently empty and
`upload_to_qdrant` returns False. -/
theorem chunk_guard_counterexample :
    chunksPy 2 3 ['a', 'b', 'c'] = Except.ok [] ∧
    uploadToQdrant (fun _ => some [0]) 2 3 ['a', 'b', 'c'] = ⟨false, 0, []⟩ := by
  have hch : chunksPy 2 3 ['a', 'b', 'c'] = Except.ok [] := by
    rw [chunksPy, if_neg (by omega), if_pos (by omega)]
  refine ⟨hch, ?_⟩
  rw [uploadToQdrant, hch]
  rfl

/-- C8 amended: when chunk_overlap >= chunk_size the chunking operation does
not loop indefinitely, but neither does it surface a configuration error:
with chunk_overlap = chunk_size the Python range construction raises a
ValueError that the outer handler swallows, and with chunk_overlap >
chunk_size the range is empty so the chunk list is silently empty; in both
cases `upload_to_qdrant` merely returns False with nothing upserted. -/
theorem chunk_guard_amended (size overlap : Nat) (t : List Char)
    (h : size ≤ overlap) :
    (size = overlap → chunksPy size overlap t =
      Except.error "ValueError: range() arg 3 must not be zero") ∧
    (size < overlap → chunksPy size overlap t = Except.ok []) ∧
    ∀ embed : List Char → Option (List Int),
      (uploadToQdrant embed size overlap t).success = false ∧
      (uploadToQdrant embed size overlap t).upserted = [] := by
  refine ⟨?_, ?_, ?_⟩
  · intro he
    rw [chunksPy, if_pos (by omega)]
  · intro hlt
    rw [chunksPy, if_neg (by omega), if_pos (by omega)]
  · intro embed
    rcases Nat.eq_or_lt_of_le h with he | hlt
    · rw [uploadToQdrant, chunksPy, if_pos (by omega)]
      exact ⟨rfl, rfl⟩
    · rw [uploadToQdrant, chunksPy, if_neg (by omega), if_pos (by omega)]
      exact ⟨rfl, rfl⟩

/-- Witness for the amended C8 at chunk_size 2, chunk_overlap 2, text "a". -/
theorem chunk_guard_amended_witness :
    ((2 : Nat) = 2 → chunksPy 2 2 ['a'] =
      Except.error "ValueError: range() arg 3 must not be zero") ∧
    ((2 : Nat) < 2 → chunksPy 2 2 ['a'] = Except.ok []) ∧
    ∀ embed : List Char → Option (List Int),
      (uploadToQdrant embed 2 2 ['a']).success = false ∧
      (uploadToQdrant embed 2 2 ['a']).upserted = [] :=
  chunk_guard_amended 2 2 ['a'] (by decide)

/-- C3 counterexample: in `upload_to_qdrant` (qdrant.py), with two chunks "a"
and "b" where only the embedding of "a" fails, the whole job returns False
after a single embedding call and nothing is upserted — the surviving chunk
"b" is not embedded or upserted, contradicting the claim that a single
chunk's failure is skipped and the job fails only when zero chunks succeed. -/
theorem per_chunk_failure_counterexample :
    chunksPy 1 0 ['a', 'b'] = Except.ok [['a'], ['b']] ∧
    embedFailFirst ['b'] = some [0] ∧
    uploadToQdrant embedFailFirst 1 0 ['a', 'b'] = ⟨false, 1, []⟩ := by
  have hcc : chunkCore 1 1 ['a', 'b'] = [['a'], ['b']] := by
    rw [chunkCore_cons (by decide) (by decide) (by decide)]
    norm_num
    rw [chunkCore_cons (by decide) (by decide) (by decide)]
    norm_num
    rw [chunkCore_nil]
  have hch : chunksPy 1 0 ['a', 'b'] = Except.ok [['a'], ['b']] := by
    rw [chunksPy, if_neg (by omega), if_neg (by omega)]
    norm_num
    exact hcc
  refine ⟨hch, by decide, ?_⟩
  rw [uploadToQdrant, hch]
  dsimp only
  have hloop : embedLoop embedFailFirst [['a'], ['b']] 0 0 = (none, 1) := by
    simp [embedLoop, embedFailFirst]
  rw [hloop]

theorem buildDocumentChunks_map_fst (embed : List Char → Option (List Int)) :
    ∀ cs : List (List Char), (buildDocumentChunks embed cs).map Prod.fst =
      cs.filter (fun c => (embed c).isSome) := by
  intro cs
  induction cs with
  | nil => rfl
  | cons a l ih =>
    cases ha : embed a <;> simp [buildDocumentChunks, ha, ih]

theorem embedLoop_aborts (embed : List Char → Option (List Int)) :
    ∀ cs : List (List Char), (∃ c ∈ cs, embed c = none) →
    ∀ idx calls : Nat, (embedLoop embed cs idx calls).1 = none := by
  intro cs
  induction cs with
  | nil =>
    rintro ⟨c, hc, _⟩
    cases hc
  | cons a l ih =>
    rintro ⟨c, hc, hcn⟩ idx calls
    cases ha : embed a with
    | none => simp [embedLoop, ha]
    | some v =>
      have hcl : c ∈ l := by
        rcases List.mem_cons.mp hc with h | h
        · subst h
          rw [ha] at hcn
          cases hcn
        · exact h
      simp only [embedLoop, ha]
      rcases hr : embedLoop embed l (idx + 1) (calls + 1) with ⟨r1, r2⟩
      have h1 : r1 = none := by
        have := ih ⟨c, hcl, hcn⟩ (idx + 1) (calls + 1)
        rw [hr] at this
        exact this
      subst h1
      rfl

theorem buildDocumentChunks_eq_nil_iff (embed : List Char → Option (List Int))
    (cs : List (List Char)) :
    buildDocumentChunks embed cs = [] ↔ ∀ c ∈ cs, embed c = none := by
  have hmap := buildDocumentChunks_map_fst embed cs
  constructor
  · intro hb c hc
    have hf : cs.filter (fun c => (embed c).isSome) = [] := by
      rw [← hmap, hb]
      rfl
    have := List.filter_eq_nil_iff.mp hf c hc
    simpa [Option.not_isSome_iff_eq_none] using this
  · intro h
    have hf : (buildDocumentChunks embed cs).map Prod.fst = [] := by
      rw [hmap]
      exact List.filter_eq_nil_iff.mpr (fun c hc => by simp [h c hc])
    exact List.map_eq_nil_iff.mp hf

/-- C3 amended: in the route pipeline (`upload_to_qdrant`, qdrant.py) a
single chunk's embedding failure aborts the entire per-chunk loop, so the
job returns False with nothing upserted; the skip-and-continue behaviour
holds only in the service-layer loop (`_process_file_background_async`,
flow_service.py): there a failed chunk is skipped, the surviving document
chunks are exactly the successfully embedded ones, and the job fails with
"No valid chunks were created from the file" precisely when zero chunks
succeed. -/
theorem per_chunk_failure_amended (embed : List Char → Option (List Int))
    (cs : List (List Char)) (c0 : List Char) (hc0 : c0 ∈ cs)
    (hfail : embed c0 = none) :
    (∀ idx calls : Nat, (embedLoop embed cs idx calls).1 = none) ∧
    (buildDocumentChunks embed cs).map Prod.fst =
      cs.filter (fun c => (embed c).isSome) ∧
    (processChunksFlowService embed cs =
        JobOutcome.failure "No valid chunks were created from the file" ↔
      ∀ c ∈ cs, embed c = none) ∧
    (∀ k : Nat, processChunksFlowService embed cs = JobOutcome.success k →
      0 < k ∧ k = (cs.filter (fun c => (embed c).isSome)).length) := by
  refine ⟨embedLoop_aborts embed cs ⟨c0, hc0, hfail⟩,
    buildDocumentChunks_map_fst embed cs, ?_, ?_⟩
  · rw [processChunksFlowService]
    by_cases hb : buildDocumentChunks embed cs = []
    · simp only [hb, List.isEmpty_nil, if_true]
      simpa using (buildDocumentChunks_eq_nil_iff embed cs).mp hb
    · have : (buildDocumentChunks embed cs).isEmpty = false := by
        rw [List.isEmpty_eq_false]
        exact hb
      rw [this]
      simp only [Bool.false_eq_true, if_false]
      constructor
      · intro h
        cases h
      · intro h
        exact absurd ((buildDocumentChunks_eq_nil_iff embed cs).mpr h) hb
  · intro k hk
    rw [processChunksFlowService] at hk
    by_cases hb : buildDocumentChunks embed cs = []
    · rw [hb] at hk
      simp at hk
    · have hbe : (buildDocumentChunks embed cs).isEmpty = false := by
        rw [List.isEmpty_eq_false]
        exact hb
      rw [hbe] at hk
      simp only [Bool.false_eq_true, if_false, JobOutcome.success.injEq] at hk
      subst hk
      refine ⟨List.length_pos.mpr hb, ?_⟩
      rw [← buildDocumentChunks_map_fst embed cs, List.length_map]

/-- Witness for the amended C3 at chunks "a" and "b" with an embedding oracle
failing exactly on "a". -/
theorem per_chunk_failure_amended_witness :
    (∀ idx calls : Nat, (embedLoop embedFailFirst [['a'], ['b']] idx calls).1 = none) ∧
    (buildDocumentChunks embedFailFirst [['a'], ['b']]).map Prod.fst =
      [['a'], ['b']].filter (fun c => (embedFailFirst c).isSome) ∧
    (processChunksFlowService embedFailFirst [['a'], ['b']] =
        JobOutcome.failure "No valid chunks were created from the file" ↔
      ∀ c ∈ [['a'], ['b']], embedFailFirst c = none) ∧
    (∀ k : Nat, processChunksFlowService embedFailFirst [['a'], ['b']] =
        JobOutcome.success k →
      0 < k ∧ k = ([['a'], ['b']].filter (fun c => (embedFailFirst c).isSome)).length) :=
  per_chunk_failure_amended embedFailFirst [['a'], ['b']] ['a']
    (List.mem_cons_self _ _) (by decide)

/-- C4: when the file-existence probe on the stored file path returns True
(all the preceding route guards having passed), the upload is rejected with
HTTP 409, the saved file is removed, the background task is never scheduled,
and consequently no extraction or embedding work is performed. -/
theorem duplicate_upload_rejected :
    uploadFileToCollection true true true true true true true = ⟨409, false, false⟩ ∧
    ∀ (embed : List Char → Option (List Int)) (size overlap : Nat)
      (content : List Char),
      uploadEndpointEmbedCalls true true true true true true true
        embed size overlap content = 0 :=
  ⟨rfl, fun _ _ _ _ => rfl⟩

theorem delete_eq_base (coll : List QPoint) (p : String)
    (hb : scrollByFilePath coll p 100 = []) :
    deleteDocumentsByFilePath coll p = (0, coll) := by
  rw [deleteDocumentsByFilePath]
  simp [hb]

theorem delete_eq_short (coll : List QPoint) (p : String)
    (hb : scrollByFilePath coll p 100 ≠ [])
    (hlt : (scrollByFilePath coll p 100).length < 100) :
    deleteDocumentsByFilePath coll p = ((scrollByFilePath coll p 100).length,
      deleteByIds coll ((scrollByFilePath coll p 100).map (fun q => q.pid))) := by
  rw [deleteDocumentsByFilePath]
  simp [hb, hlt]

theorem delete_eq_loop (coll : List QPoint) (p : String)
    (hb : scrollByFilePath coll p 100 ≠ [])
    (hge : ¬ (scrollByFilePath coll p 100).length < 100) :
    deleteDocumentsByFilePath coll p = ((scrollByFilePath coll p 100).length +
        (deleteDocumentsByFilePath
          (deleteByIds coll ((scrollByFilePath coll p 100).map (fun q => q.pid))) p).1,
      (deleteDocumentsByFilePath
          (deleteByIds coll ((scrollByFilePath coll p 100).map (fun q => q.pid))) p).2) := by
  rw [deleteDocumentsByFilePath]
  simp [hb, hge]

theorem filter_deleteByIds (coll : List QPoint) (ids : List Nat) (p : String) :
    (deleteByIds coll ids).filter (fun q => q.filePath == p) =
      (coll.filter (fun q => q.filePath == p)).filter
        (fun q => !(ids.contains q.pid)) := by
  simp only [deleteByIds, List.filter_filter]
  exact List.filter_congr (fun r _ => Bool.and_comm _ _)

theorem checkFileExists_of_no_match (coll : List QPoint) (p : String)
    (h : ∀ q ∈ coll, ¬ q.filePath = p) : checkFileExists coll p = false := by
  have hf : coll.filter (fun q => q.filePath == p) = [] :=
    List.filter_eq_nil_iff.mpr (fun q hq => by simpa using h q hq)
  simp [checkFileExists, scrollByFilePath, hf]

theorem nodup_pid_filter (coll : List QPoint)
    (h : (coll.map (fun q => q.pid)).Nodup) (m : QPoint → Bool) :
    ((coll.filter m).map (fun q => q.pid)).Nodup :=
  List.Nodup.sublist (List.Sublist.map _ (List.filter_sublist coll)) h

theorem nodup_pid_deleteByIds (coll : List QPoint) (ids : List Nat)
    (h : (coll.map (fun q => q.pid)).Nodup) :
    ((deleteByIds coll ids).map (fun q => q.pid)).Nodup :=
  nodup_pid_filter coll h _

theorem contains_pid_true (ids : List Nat) (x : Nat) (h : x ∈ ids) :
    ids.contains x = true := by
  rw [List.contains_iff_exists_mem_beq]
  exact ⟨x, h, by simp⟩

theorem contains_pid_false (ids : List Nat) (x : Nat) (h : x ∉ ids) :
    ids.contains x = false := by
  cases hcc : ids.contains x with
  | false => rfl
  | true =>
    rcases List.contains_iff_exists_mem_beq.mp hcc with ⟨b, hb, hxb⟩
    rw [beq_iff_eq] at hxb
    subst hxb
    exact absurd hb h

theorem filter_not_contains_nil (ids : List Nat) (l : List QPoint)
    (h : ∀ q ∈ l, q.pid ∈ ids) :
    l.filter (fun q => !(ids.contains q.pid)) = [] := by
  apply List.filter_eq_nil_iff.mpr
  intro q hq
  rw [contains_pid_true ids q.pid (h q hq)]
  simp

theorem filter_not_contains_self (ids : List Nat) (l : List QPoint)
    (h : ∀ q ∈ l, q.pid ∉ ids) :
    l.filter (fun q => !(ids.contains q.pid)) = l := by
  apply List.filter_eq_self.mpr
  intro q hq
  rw [contains_pid_false ids q.pid (h q hq)]
  rfl

/-- C5: after `delete_documents_by_file_path` on a collection (with distinct
point ids) and path p returns, the count equals the number of points that
matched `metadata.file_path == p`, no point of the resulting collection has
that file path (in particular the count is 0 and the collection untouched
when nothing matched), and the file-existence probe on the result returns
False. -/
theorem delete_by_file_path_complete (coll : List QPoint) (p : String)
    (hnodup : (coll.map (fun q => q.pid)).Nodup) :
    (deleteDocumentsByFilePath coll p).1 =
      (coll.filter (fun q => q.filePath == p)).length ∧
    (∀ q ∈ (deleteDocumentsByFilePath coll p).2, ¬ q.filePath = p) ∧
    (coll.filter (fun q => q.filePath == p) = [] →
      deleteDocumentsByFilePath coll p = (0, coll)) ∧
    checkFileExists (deleteDocumentsByFilePath coll p).2 p = false := by
  have main : ∀ n : Nat, ∀ c : List QPoint,
      (c.filter (fun q => q.filePath == p)).length ≤ n →
      ((c.map (fun q => q.pid)).Nodup) →
      (deleteDocumentsByFilePath c p).1 =
        (c.filter (fun q => q.filePath == p)).length ∧
      (∀ q ∈ (deleteDocumentsByFilePath c p).2, ¬ q.filePath = p) := by
    intro n
    induction n with
    | zero =>
      intro c hlen hnd
      have hF : c.filter (fun q => q.filePath == p) = [] :=
        List.eq_nil_of_length_eq_zero (Nat.le_zero.mp hlen)
      have hb : scrollByFilePath c p 100 = [] := by
        rw [scrollByFilePath, hF]
        rfl
      rw [delete_eq_base c p hb]
      refine ⟨by simp [hF], ?_⟩
      intro q hq
      have := List.filter_eq_nil_iff.mp hF q hq
      simpa using this
    | succ n ih =>
      intro c hlen hnd
      by_cases hb : scrollByFilePath c p 100 = []
      · have hF : c.filter (fun q => q.filePath == p) = [] := by
          have h2 := hb
          rw [scrollByFilePath] at h2
          rcases List.take_eq_nil_iff.mp h2 with h | h
          · exact absurd h (by decide)
          · exact h
        rw [delete_eq_base c p hb]
        refine ⟨by simp [hF], ?_⟩
        intro q hq
        have := List.filter_eq_nil_iff.mp hF q hq
        simpa using this
      · by_cases hlt : (scrollByFilePath c p 100).length < 100
        · have hlF : (c.filter (fun q => q.filePath == p)).length < 100 := by
            rw [scrollByFilePath, List.length_take] at hlt
            omega
          have hbatch : scrollByFilePath c p 100 =
              c.filter (fun q => q.filePath == p) := by
            rw [scrollByFilePath]
            exact List.take_of_length_le (Nat.le_of_lt hlF)
          rw [delete_eq_short c p hb hlt]
          refine ⟨by rw [hbatch], ?_⟩
          have hnil : (deleteByIds c
              ((scrollByFilePath c p 100).map (fun r => r.pid))).filter
              (fun r => r.filePath == p) = [] := by
            rw [filter_deleteByIds, hbatch]
            exact filter_not_contains_nil _ _
              (fun q hq => List.mem_map.mpr ⟨q, hq, rfl⟩)
          intro q hq
          have := List.filter_eq_nil_iff.mp hnil q hq
          simpa using this
        · have hge : 100 ≤ (c.filter (fun q => q.filePath == p)).length := by
            rw [scrollByFilePath, List.length_take] at hlt
            omega
          have hbatchlen : (scrollByFilePath c p 100).length = 100 := by
            rw [scrollByFilePath, List.length_take]
            omega
          have hsplit : (c.filter (fun q => q.filePath == p)).take 100 ++
              (c.filter (fun q => q.filePath == p)).drop 100 =
              c.filter (fun q => q.filePath == p) :=
            List.take_append_drop 100 _
          have hnodupF : ((c.filter (fun q => q.filePath == p)).map
              (fun q => q.pid)).Nodup := nodup_pid_filter c hnd _
          have hndapp : (((c.filter (fun q => q.filePath == p)).take 100).map
              (fun q => q.pid) ++ ((c.filter (fun q => q.filePath == p)).drop 100).map
              (fun q => q.pid)).Nodup := by
            rw [← List.map_append, hsplit]
            exact hnodupF
          have hdisj := List.disjoint_of_nodup_append hndapp
          have hrest : (deleteByIds c
              ((scrollByFilePath c p 100).map (fun q => q.pid))).filter
              (fun q => q.filePath == p) =
              (c.filter (fun q => q.filePath == p)).drop 100 := by
            rw [filter_deleteByIds]
            conv_lhs => rw [← hsplit]
            rw [List.filter_append]
            have h1 : ((c.filter (fun q => q.filePath == p)).take 100).filter
                (fun q => !(((scrollByFilePath c p 100).map (fun r => r.pid)).contains
                  q.pid)) = [] := by
              apply filter_not_contains_nil
              intro q hq
              rw [scrollByFilePath]
              exact List.mem_map.mpr ⟨q, hq, rfl⟩
            have h2 : ((c.filter (fun q => q.filePath == p)).drop 100).filter
                (fun q => !(((scrollByFilePath c p 100).map (fun r => r.pid)).contains
                  q.pid)) = (c.filter (fun q => q.filePath == p)).drop 100 := by
              apply filter_not_contains_self
              intro q hq hmem
              rw [scrollByFilePath] at hmem
              exact hdisj hmem (List.mem_map.mpr ⟨q, hq, rfl⟩)
            rw [h1, h2, List.nil_append]
          have hlen2 : ((deleteByIds c
              ((scrollByFilePath c p 100).map (fun q => q.pid))).filter
              (fun q => q.filePath == p)).length ≤ n := by
            rw [hrest, List.length_drop]
            omega
          have hnd2 := nodup_pid_deleteByIds c
            ((scrollByFilePath c p 100).map (fun q => q.pid)) hnd
          obtain ⟨ihcount, ihpost⟩ := ih (deleteByIds c
            ((scrollByFilePath c p 100).map (fun q => q.pid))) hlen2 hnd2
          rw [delete_eq_loop c p hb hlt]
          refine ⟨?_, ihpost⟩
          rw [ihcount, hrest, hbatchlen, List.length_drop]
          omega
  obtain ⟨hcount, hpost⟩ := main
    (coll.filter (fun q => q.filePath == p)).length coll (Nat.le_refl _) hnodup
  refine ⟨hcount, hpost, ?_, checkFileExists_of_no_match _ p hpost⟩
  intro hF
  have hb : scrollByFilePath coll p 100 = [] := by
    rw [scrollByFilePath, hF]
    rfl
  exact delete_eq_base coll p hb

/-- Witness for C5 at a two-point collection where one point matches the
deleted path. -/
theorem delete_by_file_path_complete_witness :
    (deleteDocumentsByFilePath [⟨1, "a"⟩, ⟨2, "b"⟩] "a").1 =
      ([(⟨1, "a"⟩ : QPoint), ⟨2, "b"⟩].filter (fun q => q.filePath == "a")).length ∧
    (∀ q ∈ (deleteDocumentsByFilePath [⟨1, "a"⟩, ⟨2, "b"⟩] "a").2,
      ¬ q.filePath = "a") ∧
    (([(⟨1, "a"⟩ : QPoint), ⟨2, "b"⟩].filter (fun q => q.filePath == "a")) = [] →
      deleteDocumentsByFilePath [⟨1, "a"⟩, ⟨2, "b"⟩] "a" = (0, [⟨1, "a"⟩, ⟨2, "b"⟩])) ∧
    checkFileExists (deleteDocumentsByFilePath [⟨1, "a"⟩, ⟨2, "b"⟩] "a").2 "a" = false :=
  delete_by_file_path_complete [⟨1, "a"⟩, ⟨2, "b"⟩] "a" (by decide)

/-- C6: collection creation is idempotent — when the collection name is
already present, `create_collection` returns the existing collection's info
with created = False and leaves the state untouched; in particular a second
call after any first call changes nothing and reports created = False with
the stored info (hence an unchanged point count). -/
theorem create_collection_idempotent (state : List (String × CollectionInfo))
    (name : String) (v1 v2 : Nat) :
    (∀ info : CollectionInfo, state.lookup name = some info →
      createCollection state name v2 = (state, ⟨false, info⟩)) ∧
    (createCollection state name v1).1.lookup name =
      some (createCollection state name v1).2.info ∧
    createCollection (createCollection state name v1).1 name v2 =
      ((createCollection state name v1).1,
        ⟨false, (createCollection state name v1).2.info⟩) := by
  refine ⟨?_, ?_, ?_⟩
  · intro info hi
    simp [createCollection, hi]
  · cases h : state.lookup name with
    | some info => simp [createCollection, h]
    | none => simp [createCollection, h]
  · cases h : state.lookup name with
    | some info => simp [createCollection, h]
    | none => simp [createCollection, h]

/-- Witness for C6 at a one-collection state. -/
theorem create_collection_idempotent_witness :
    (∀ info : CollectionInfo, ([("c", (⟨5, 3⟩ : CollectionInfo))]).lookup "c" = some info →
      createCollection [("c", ⟨5, 3⟩)] "c" 7 = ([("c", ⟨5, 3⟩)], ⟨false, info⟩)) ∧
    (createCollection [("c", ⟨5, 3⟩)] "c" 4).1.lookup "c" =
      some (createCollection [("c", ⟨5, 3⟩)] "c" 4).2.info ∧
    createCollection (createCollection [("c", ⟨5, 3⟩)] "c" 4).1 "c" 7 =
      ((createCollection [("c", ⟨5, 3⟩)] "c" 4).1,
        ⟨false, (createCollection [("c", ⟨5, 3⟩)] "c" 4).2.info⟩) :=
  create_collection_idempotent [("c", ⟨5, 3⟩)] "c" 4 7

theorem lookup_concat_self (l : List (List Nat × String)) (k : List Nat)
    (d : String) (hnone : l.lookup k = none) :
    (l ++ [(k, d)]).lookup k = some d := by
  rw [List.lookup_append, hnone]
  simp

theorem lookup_eraseP_self (k : List Nat) :
    ∀ l : List (List Nat × String), (l.map Prod.fst).Nodup →
    (l.eraseP (fun e => e.1 == k)).lookup k = none := by
  intro l
  induction l with
  | nil => intro h; rfl
  | cons a l ih =>
    intro h
    rcases a with ⟨ka, va⟩
    rw [List.map_cons] at h
    have hnd := List.nodup_cons.mp h
    rw [List.eraseP_cons]
    by_cases hk : (ka == k) = true
    · simp only [hk, cond_true]
      rw [List.lookup_eq_none_iff]
      intro pr hpr
      have hka : ka = k := by simpa using hk
      subst hka
      have hmem : pr.1 ∈ l.map Prod.fst := List.mem_map.mpr ⟨pr, hpr, rfl⟩
      simp only [bne_iff_ne]
      intro he
      rw [← he] at hmem
      exact hnd.1 hmem
    · have hk2 : (ka == k) = false := by simpa using hk
      simp only [hk2, cond_false]
      rw [List.lookup_cons]
      have hkk : (k == ka) = false := by
        rw [beq_eq_false_iff_ne]
        intro he
        rw [he] at hk
        simp at hk
      rw [hkk]
      exact ih hnd.2

theorem lookup_map_pairs_none (desc : List Nat → String)
    (keys : List (List Nat)) (y : List Nat) (hy : y ∉ keys) :
    (keys.map (fun x => (hashImage x, desc x))).lookup (hashImage y) = none := by
  rw [List.lookup_eq_none_iff]
  intro pr hpr
  rcases List.mem_map.mp hpr with ⟨x, hx, hxe⟩
  subst hxe
  simp only [hashImage, bne_iff_ne]
  intro he
  exact hy (he ▸ hx)

theorem cache_store_get (c : ImageDescriptionCache) (hwf : CacheWF c)
    (b : List Nat) (d : String) (c2 : ImageDescriptionCache)
    (h : storeDescription c b d = Except.ok c2) :
    (getDescription c2 b).1 = some d := by
  simp only [storeDescription] at h
  by_cases hhit : (c.entries.lookup (hashImage b)).isSome = true
  · rw [if_pos hhit] at h
    injection h with h
    subst h
    simp only [getDescription]
    rw [lookup_concat_self _ _ _ (lookup_eraseP_self (hashImage b) c.entries hwf)]
  · have hnone : c.entries.lookup (hashImage b) = none :=
      Option.not_isSome_iff_eq_none.mp (by simpa using hhit)
    rw [if_neg hhit] at h
    by_cases hcap : c.maxSize ≤ c.entries.length
    · rw [if_pos hcap] at h
      cases hent : c.entries with
      | nil =>
        rw [hent] at h
        exact Except.noConfusion h
      | cons e0 rest =>
        rw [hent] at h
        injection h with h
        subst h
        simp only [getDescription]
        have hrest : rest.lookup (hashImage b) = none := by
          rw [List.lookup_eq_none_iff] at hnone ⊢
          intro pr hpr
          exact hnone pr (by rw [hent]; exact List.mem_cons_of_mem _ hpr)
        rw [lookup_concat_self _ _ _ hrest]
    · rw [if_neg hcap] at h
      injection h with h
      subst h
      simp only [getDescription]
      rw [lookup_concat_self _ _ _ hnone]

theorem cache_hit_promotes (c : ImageDescriptionCache) (b : List Nat)
    (d0 : String) (h : (getDescription c b).1 = some d0) :
    (getDescription c b).2.entries.getLast? = some (hashImage b, d0) := by
  simp only [getDescription] at h ⊢
  cases hl : c.entries.lookup (hashImage b) with
  | none =>
    rw [hl] at h
    simp at h
  | some d1 =>
    rw [hl] at h
    simp only at h
    injection h with h
    subst h
    simp [List.getLast?_concat]

theorem storeAll_append (desc : List Nat → String) :
    ∀ (l1 l2 : List (List Nat)) (c : ImageDescriptionCache),
    storeAll c desc (l1 ++ l2) =
      match storeAll c desc l1 with
      | Except.error e => Except.error e
      | Except.ok c2 => storeAll c2 desc l2 := by
  intro l1
  induction l1 with
  | nil => intro l2 c; rfl
  | cons x l1 ih =>
    intro l2 c
    simp only [List.cons_append, storeAll]
    cases storeDescription c x (desc x) with
    | error e => rfl
    | ok c2 => exact ih l2 c2

theorem storeAll_fresh (desc : List Nat → String) :
    ∀ (bs : List (List Nat)) (c : ImageDescriptionCache), bs.Nodup →
    (∀ x ∈ bs, c.entries.lookup (hashImage x) = none) →
    c.entries.length + bs.length ≤ c.maxSize →
    storeAll c desc bs =
      Except.ok ⟨c.entries ++ bs.map (fun x => (hashImage x, desc x)), c.maxSize⟩ := by
  intro bs
  induction bs with
  | nil =>
    intro c _ _ _
    simp [storeAll]
  | cons x bs ih =>
    intro c hnd hfresh hlen
    have hx : c.entries.lookup (hashImage x) = none :=
      hfresh x (List.mem_cons_self _ _)
    have hndc := List.nodup_cons.mp hnd
    simp only [storeAll, storeDescription]
    rw [if_neg (by rw [hx]; simp)]
    rw [if_neg (by simp at hlen ⊢; omega)]
    dsimp only
    rw [ih ⟨c.entries ++ [(hashImage x, desc x)], c.maxSize⟩ hndc.2 ?_ ?_]
    · simp
    · intro y hy
      have hyx : y ≠ x := fun he => hndc.1 (he ▸ hy)
      simp only []
      rw [List.lookup_append, hfresh y (List.mem_cons_of_mem _ hy)]
      rw [List.lookup_cons]
      have : (hashImage y == hashImage x) = false := by
        simp only [hashImage]
        rw [beq_eq_false_iff_ne]
        exact hyx
      rw [this]
      rfl
    · simp at hlen ⊢
      omega

theorem cache_evicts (n : Nat) (hn : 0 < n) (b0 : List Nat)
    (rest : List (List Nat)) (desc : List Nat → String)
    (hrest : rest.length = n) (hnd : (b0 :: rest).Nodup) :
    storeAll (emptyCache n) desc (b0 :: rest) =
      Except.ok ⟨(rest.dropLast.map (fun x => (hashImage x, desc x))) ++
        [(hashImage (rest.getLast?.getD []), desc (rest.getLast?.getD []))], n⟩ ∧
    ∀ cf : ImageDescriptionCache,
      storeAll (emptyCache n) desc (b0 :: rest) = Except.ok cf →
      (getDescription cf b0).1 = none ∧ cf.entries.length = n := by
  rcases List.eq_nil_or_concat rest with hre | ⟨mid, last, hre⟩
  · rw [hre] at hrest
    simp at hrest
    omega
  · rw [List.concat_eq_append] at hre
    subst hre
    have hndc := List.nodup_cons.mp hnd
    have hb0mid : b0 ∉ mid := fun hm => hndc.1 (List.mem_append_left _ hm)
    have hb0last : b0 ≠ last := fun he =>
      hndc.1 (List.mem_append_right _ (he ▸ List.mem_singleton_self _))
    have hnda := List.nodup_append.mp hndc.2
    have hmidnd : mid.Nodup := hnda.1
    have hlastmid : last ∉ mid := fun hm => hnda.2.2 hm (List.mem_singleton_self _)
    have hmidlen : mid.length = n - 1 := by
      have := hrest
      simp at this
      omega
    -- step 1: inserting b0 into the empty cache
    have hstep1 : storeAll (emptyCache n) desc (b0 :: (mid ++ [last])) =
        storeAll ⟨[(hashImage b0, desc b0)], n⟩ desc (mid ++ [last]) := by
      simp only [storeAll, storeDescription, emptyCache]
      rw [if_neg (by simp)]
      rw [if_neg (by simp; omega)]
      rfl
    -- step 2: filling with mid leaves b0 oldest
    have hstep2 : storeAll ⟨[(hashImage b0, desc b0)], n⟩ desc mid =
        Except.ok ⟨(hashImage b0, desc b0) ::
          mid.map (fun x => (hashImage x, desc x)), n⟩ := by
      have := storeAll_fresh desc mid ⟨[(hashImage b0, desc b0)], n⟩ hmidnd
        (fun y hy => by
          simp only []
          rw [List.lookup_cons]
          have : (hashImage y == hashImage b0) = false := by
            simp only [hashImage]
            rw [beq_eq_false_iff_ne]
            exact fun he => hb0mid (he ▸ hy)
          rw [this]
          rfl)
        (by simp [hmidlen]; omega)
      simpa using this
    -- step 3: inserting last evicts b0
    have hstep3 : storeDescription ⟨(hashImage b0, desc b0) ::
          mid.map (fun x => (hashImage x, desc x)), n⟩ last (desc last) =
        Except.ok ⟨mid.map (fun x => (hashImage x, desc x)) ++
          [(hashImage last, desc last)], n⟩ := by
      simp only [storeDescription]
      have hlook : ((hashImage b0, desc b0) ::
          mid.map (fun x => (hashImage x, desc x))).lookup (hashImage last) = none := by
        rw [List.lookup_cons]
        have hne : (hashImage last == hashImage b0) = false := by
          simp only [hashImage]
          rw [beq_eq_false_iff_ne]
          exact fun he => hb0last he.symm
        rw [hne]
        exact lookup_map_pairs_none desc mid last hlastmid
      rw [if_neg (by rw [hlook]; simp)]
      rw [if_pos (by simp [hmidlen]; omega)]
    have hfinal : storeAll (emptyCache n) desc (b0 :: (mid ++ [last])) =
        Except.ok ⟨mid.map (fun x => (hashImage x, desc x)) ++
          [(hashImage last, desc last)], n⟩ := by
      rw [hstep1, storeAll_append desc mid [last]]
      rw [hstep2]
      simp only [storeAll, hstep3]
    constructor
    · rw [hfinal]
      have hdl : (mid ++ [last]).dropLast = mid := by simp
      have hgl : (mid ++ [last]).getLast?.getD [] = last := by
        simp [List.getLast?_concat]
      rw [hdl, hgl]
    · intro cf hcf
      rw [hfinal] at hcf
      injection hcf with hcf
      subst hcf
      constructor
      · simp only [getDescription]
        have hlook : ((mid.map (fun x => (hashImage x, desc x))) ++
            [(hashImage last, desc last)]).lookup (hashImage b0) = none := by
          rw [List.lookup_append]
          rw [lookup_map_pairs_none desc mid b0 hb0mid]
          rw [List.lookup_cons]
          have : (hashImage b0 == hashImage last) = false := by
            simp only [hashImage]
            rw [beq_eq_false_iff_ne]
            exact hb0last
          rw [this]
          rfl
        rw [hlook]
      · simp [hmidlen]
        omega

/-- C7: for any image bytes B and description D, a successful
`store_description(B, D)` followed by `get_description(B)` returns D; a get
hit promotes the entry to most-recently-used (it becomes the last entry of
the ordered dict); and inserting capacity+1 distinct images into a fresh
cache succeeds without error, evicts the least-recently-used (first) image,
which is no longer retrievable, and leaves the cache exactly at capacity. -/
theorem image_cache_correct (c : ImageDescriptionCache) (hwf : CacheWF c)
    (b : List Nat) (d d0 : String) (c2 : ImageDescriptionCache)
    (hstore : storeDescription c b d = Except.ok c2)
    (hhit : (getDescription c b).1 = some d0)
    (n : Nat) (hn : 0 < n) (b0 : List Nat) (rest : List (List Nat))
    (desc : List Nat → String) (hrest : rest.length = n)
    (hnd : (b0 :: rest).Nodup) :
    (getDescription c2 b).1 = some d ∧
    (getDescription c b).2.entries.getLast? = some (hashImage b, d0) ∧
    ∃ cf : ImageDescriptionCache,
      storeAll (emptyCache n) desc (b0 :: rest) = Except.ok cf ∧
      (getDescription cf b0).1 = none ∧ cf.entries.length = n := by
  refine ⟨cache_store_get c hwf b d c2 hstore, cache_hit_promotes c b d0 hhit, ?_⟩
  obtain ⟨hall, hpost⟩ := cache_evicts n hn b0 rest desc hrest hnd
  exact ⟨_, hall, hpost _ hall⟩

/-- Witness for C7: a one-entry cache of capacity 1; storing then reading
back, a hit promotion, and eviction of the oldest of 2 distinct images
inserted into a fresh capacity-1 cache. -/
theorem image_cache_correct_witness :
    (getDescription ⟨[([1], "new")], 1⟩ [1]).1 = some "new" ∧
    (getDescription ⟨[([1], "old")], 1⟩ [1]).2.entries.getLast? =
      some (hashImage [1], "old") ∧
    ∃ cf : ImageDescriptionCache,
      storeAll (emptyCache 1) (fun _ => "x") [[0], [2]] = Except.ok cf ∧
      (getDescription cf [0]).1 = none ∧ cf.entries.length = 1 :=
  image_cache_correct ⟨[([1], "old")], 1⟩ (by decide) [1] "new" "old"
    ⟨[([1], "new")], 1⟩ rfl rfl 1 (by decide) [0] [[2]]
    (fun _ => "x") rfl (by decide)

/-- C9 counterexample: when `upload_to_qdrant` returns True, `process_file`
removes the tracker entry but does not delete the source file — starting
from a tracked file that is on disk, the success branch leaves the file on
disk, contradicting the claim that the source file is deleted on success. -/
theorem success_cleanup_counterexample :
    processFile UploadOutcome.returnedTrue ⟨some ⟨"processing", none⟩, true⟩ =
      ⟨none, true⟩ ∧
    ¬ (processFile UploadOutcome.returnedTrue
        ⟨some ⟨"processing", none⟩, true⟩).fileOnDisk = false :=
  ⟨rfl, by decide⟩

/-- C9 amended: on the success terminal state of `process_file` the tracker
entry is removed but the source file is left in place; on the failed terminal
state (upload returning False, or an exception) the entry is retained with
status failed and an error message, and the source file is deleted. -/
theorem terminal_state_cleanup_amended (s : ProcessFileState) (e : TrackerEntry)
    (htrack : s.trackerEntry = some e) :
    processFile UploadOutcome.returnedTrue s = ⟨none, s.fileOnDisk⟩ ∧
    processFile UploadOutcome.returnedFalse s =
      ⟨some ⟨"failed", some "Processing failed"⟩, false⟩ ∧
    (∀ m : String, processFile (UploadOutcome.raised m) s =
      ⟨some ⟨"failed", some m⟩, false⟩) := by
  refine ⟨rfl, ?_, ?_⟩
  · simp [processFile, updateEntry, htrack]
  · intro m
    simp [processFile, updateEntry, htrack]

/-- Witness for the amended C9 at a tracked in-progress file. -/
theorem terminal_state_cleanup_amended_witness :
    processFile UploadOutcome.returnedTrue ⟨some ⟨"processing", none⟩, true⟩ =
      ⟨none, (⟨some ⟨"processing", none⟩, true⟩ : ProcessFileState).fileOnDisk⟩ ∧
    processFile UploadOutcome.returnedFalse ⟨some ⟨"processing", none⟩, true⟩ =
      ⟨some ⟨"failed", some "Processing failed"⟩, false⟩ ∧
    (∀ m : String, processFile (UploadOutcome.raised m)
        ⟨some ⟨"processing", none⟩, true⟩ = ⟨some ⟨"failed", some m⟩, false⟩) :=
  terminal_state_cleanup_amended ⟨some ⟨"processing", none⟩, true⟩
    ⟨"processing", none⟩ rfl

/-- C10: `update_file` on an untracked file id leaves the tracker unchanged —
no entry is created or modified, and `is_processing` still returns False. -/
theorem update_untracked_noop (t : Tracker) (fid : String)
    (updates : List (String × String)) (now : String)
    (h : t.lookup fid = none) :
    updateFile t fid updates now = t ∧
    isProcessing (updateFile t fid updates now) fid = false ∧
    isProcessing t fid = false := by
  have h3 : updateFile t fid updates now = t := by
    rw [updateFile, if_neg (by rw [h]; simp)]
  refine ⟨h3, ?_, ?_⟩
  · rw [h3, isProcessing, h]
    rfl
  · rw [isProcessing, h]
    rfl

/-- Witness for C10 at a one-entry tracker and a different file id. -/
theorem update_untracked_noop_witness :
    updateFile [("a", [("status", "processing")])] "b" [("status", "failed")] "t0" =
      [("a", [("status", "processing")])] ∧
    isProcessing (updateFile [("a", [("status", "processing")])] "b"
      [("status", "failed")] "t0") "b" = false ∧
    isProcessing [("a", [("status", "processing")])] "b" = false :=
  update_untracked_noop [("a", [("status", "processing")])] "b"
    [("status", "failed")] "t0" rfl
